import Mathlib

/-!
Verification of the route-construction engine of the Shelter-Routing
repository (file heuristic_algorithm.py, function nearest_neighbor_heuristic).

The Python code is shallowly embedded here:

* Python floats are modelled by the rationals; the tolerance 1e-6 of the
  source becomes the rational constant eps.
* Python dictionaries (demand_dict, remaining_demand, distance_matrix) are
  modelled by association lists with first-match lookup and first-match
  value replacement, which coincides with dictionary behaviour because the
  loaders build the dictionaries with unique keys.
* The value float("inf") used as the fallback of distance_matrix.get is
  modelled by the value none of Option; optLt mirrors the float comparison
  of finite values and infinity, and getTravelTime maps a missing distance
  to none (for a positive speed, inf / speed * 60 is again inf).
* The two while loops of the source are modelled by fuel-indexed recursion:
  a result of none means that the given iteration budget was exhausted, so
  a run that returns some state is exactly a run of the source that
  terminates within that many loop iterations.
* The Python set unvisited_customers is modelled by a duplicate-free list
  (set construction deduplicates); element removal is List.erase.
* Two ghost fields (delivered, tripLoads) record the cumulative delivered
  quantity and the delivered quantity of every kept trip.  They are write
  only observers used to state conservation and capacity properties and do
  not influence the control flow.
* The wall-clock quantities t0 and comp_time of the source are real time
  and are not modelled; the printing statements are ignored.
-/

namespace ShelterRouting

abbrev Node := Nat

/-- The tolerance 1e-6 used throughout the source. -/
def eps : ℚ := 1 / 1000000

/-- First-match lookup in an association list; models Python dict access. -/
def alookup {α : Type} [DecidableEq α] : List (α × ℚ) → α → Option ℚ
  | [], _ => none
  | (k, v) :: rest, k2 => if k = k2 then some v else alookup rest k2

/-- First-match value replacement; models assignment to an existing
dictionary key.  On an absent key it is the identity (the source only
assigns to keys that are present in remaining_demand). -/
def aupdate : List (Node × ℚ) → Node → ℚ → List (Node × ℚ)
  | [], _, _ => []
  | (k, v) :: rest, k2, v2 =>
      if k = k2 then (k, v2) :: rest else (k, v) :: aupdate rest k2 v2

/-- Problem instance: the arguments of nearest_neighbor_heuristic (the
vehicle count V_count is kept separate because it only feeds the reporting
step). -/
structure VRPInstance where
  S : List Node
  dist : List ((Node × Node) × ℚ)
  demand : List (Node × ℚ)
  capacity : ℚ
  speed : ℚ
  unload_t : ℚ
deriving DecidableEq

/-- Value of remaining_demand.get(n, 0). -/
def remGet (r : List (Node × ℚ)) (n : Node) : ℚ := (alookup r n).getD 0

/-- Value of demand_dict.get(n, 0). -/
def demGet (I : VRPInstance) (n : Node) : ℚ := (alookup I.demand n).getD 0

/-- Value of distance_matrix.get((n1, n2), inf): none models inf. -/
def distGet (I : VRPInstance) (n1 n2 : Node) : Option ℚ :=
  alookup I.dist (n1, n2)

/-- Comparison dist < current_minimum on floats where none plays inf:
a missing distance is never below anything, and any finite distance is
below inf. -/
def optLt : Option ℚ → Option ℚ → Bool
  | some a, some b => decide (a < b)
  | some _, none => true
  | none, _ => false

/-- Addition of possibly infinite times (inf absorbs). -/
def iAdd : Option ℚ → Option ℚ → Option ℚ
  | some a, some b => some (a + b)
  | _, _ => none

/-- Source helper get_travel_time: (dist / speed) * 60 minutes; a missing
distance stays infinite (for the positive speeds of the data contract). -/
def getTravelTime (I : VRPInstance) (n1 n2 : Node) : Option ℚ :=
  (distGet I n1 n2).map (fun d => d / I.speed * 60)

/-- State of the trip currently under construction: current_route,
current_load, current_location, route_travel_time, route_unload_time. -/
structure TripState where
  route : List Node
  load : ℚ
  loc : Node
  tTravel : Option ℚ
  tUnload : ℚ
deriving DecidableEq

/-- Global state of the construction: unvisited_customers,
remaining_demand, routes, total_travel_time, total_unload_time, plus the
two ghost observers delivered and tripLoads. -/
structure GlobalState where
  unvisited : List Node
  rem : List (Node × ℚ)
  routes : List (List Node)
  totalTravel : Option ℚ
  totalUnload : ℚ
  delivered : ℚ
  tripLoads : List ℚ
deriving DecidableEq

/-- One candidate inspection of the selection loop (source lines 82 to 89):
a customer with remaining demand above eps whose distance from the current
location beats the minimum so far is recorded, provided the current load is
strictly below capacity minus eps. -/
def selectFold (I : VRPInstance) (load : ℚ) (loc : Node)
    (rem : List (Node × ℚ)) (acc : Option Node × Option ℚ) (c : Node) :
    Option Node × Option ℚ :=
  if eps < remGet rem c then
    let d := distGet I loc c
    if optLt d acc.2 then
      if load < I.capacity - eps then (some c, d) else acc
    else acc
  else acc

/-- Selection of best_next_customer over the unvisited customers, starting
from an infinite minimum distance. -/
def selectNext (I : VRPInstance) (load : ℚ) (loc : Node)
    (rem : List (Node × ℚ)) (unv : List Node) : Option Node :=
  (unv.foldl (selectFold I load loc rem) (none, none)).1

/-- The body of one customer visit (source lines 91 to 118): travel to the
customer, deliver min(capacity - load, remaining demand), account the
unload time, decrement the remaining demand, and drop the customer from
the unvisited set when its remaining demand falls to eps or below. -/
def visit (I : VRPInstance) (g : GlobalState) (t : TripState) (c : Node) :
    GlobalState × TripState :=
  let segT := getTravelTime I t.loc c
  let canUnload := I.capacity - t.load
  let demandAt := remGet g.rem c
  let unloaded := min canUnload demandAt
  let remNew := aupdate g.rem c (demandAt - unloaded)
  let unvNew := if demandAt - unloaded ≤ eps then g.unvisited.erase c
                else g.unvisited
  ({ g with rem := remNew, unvisited := unvNew,
            delivered := g.delivered + unloaded },
   { route := t.route ++ [c], load := t.load + unloaded, loc := c,
     tTravel := iAdd t.tTravel segT,
     tUnload := t.tUnload + I.unload_t * unloaded })

/-- Trip closing (source lines 128 to 142): return to the depot when away
from it, then keep the trip and add its times to the grand totals exactly
when the route has more than two entries. -/
def closeTrip (I : VRPInstance) (g : GlobalState) (t : TripState) :
    GlobalState :=
  let t2 := if t.loc ≠ 0 then
      { t with route := t.route ++ [0],
               tTravel := iAdd t.tTravel (getTravelTime I t.loc 0) }
    else t
  if 2 < t2.route.length then
    { g with routes := g.routes ++ [t2.route],
             totalTravel := iAdd g.totalTravel t2.tTravel,
             totalUnload := g.totalUnload + t2.tUnload,
             tripLoads := g.tripLoads ++ [t.load] }
  else g

/-- The inner while True loop (source lines 78 to 126) plus the trip
closing: keep visiting selected customers until no candidate remains, the
capacity is reached within eps, or no unvisited customer remains. -/
def runTrip (I : VRPInstance) : Nat → GlobalState → TripState →
    Option GlobalState
  | 0, _, _ => none
  | fuel + 1, g, t =>
    match selectNext I t.load t.loc g.rem g.unvisited with
    | none => some (closeTrip I g t)
    | some c =>
      let p := visit I g t c
      if I.capacity - eps ≤ p.2.load ∨ p.1.unvisited = [] then
        some (closeTrip I p.1 p.2)
      else runTrip I fuel p.1 p.2

/-- Fresh trip state: route [0], zero load, at the depot (source lines 57
to 62). -/
def initTrip : TripState :=
  { route := [0], load := 0, loc := 0, tTravel := some 0, tUnload := 0 }

/-- Eligible customers (source line 43): nodes of S other than the depot
that are present in demand_dict with demand above eps. -/
def customersList (I : VRPInstance) : List Node :=
  I.S.filter (fun n =>
    decide (n ≠ 0) && (alookup I.demand n).isSome && decide (eps < demGet I n))

/-- The unvisited customer set: set(customers) deduplicates. -/
def custSet (I : VRPInstance) : List Node := (customersList I).dedup

/-- The state right after the initialisation block (source lines 43 to 51):
remaining_demand is a copy of demand_dict, no routes, zero totals. -/
def initState (I : VRPInstance) : GlobalState :=
  { unvisited := custSet I, rem := I.demand, routes := [],
    totalTravel := some 0, totalUnload := 0, delivered := 0, tripLoads := [] }

/-- The outer while unvisited_customers loop (source lines 54 to 146): each
round builds one trip; the loop stops as soon as the unvisited set is
empty. -/
def runOuter (I : VRPInstance) : Nat → GlobalState → Option GlobalState
  | 0, _ => none
  | fuel + 1, g =>
    if g.unvisited = [] then some g
    else
      match runTrip I fuel g initTrip with
      | none => none
      | some g2 => if g2.unvisited = [] then some g2 else runOuter I fuel g2

/-- Whole construction run from the freshly initialised state. -/
def runHeuristic (I : VRPInstance) (fuel : Nat) : Option GlobalState :=
  runOuter I fuel (initState I)

/-- total_objective_value = total_travel_time + total_unload_time (source
line 157). -/
def objective (g : GlobalState) : Option ℚ :=
  iAdd g.totalTravel (some g.totalUnload)

/-- The value the source function hands back to its caller (source line
302): the pair (total_objective_value, comp_time).  The wall-clock
component comp_time is real time and is not modelled, so the embedding
keeps the objective component. -/
def nearestNeighborHeuristic (I : VRPInstance) (fuel : Nat) :
    Option (Option ℚ) :=
  (runHeuristic I fuel).map objective

/-- Round-robin assignment of trips to vehicles (source lines 186 to 195):
vehicle i + 1 receives the trips whose index is congruent to i modulo the
vehicle count. -/
def roundRobinAssign (K : Nat) (routes : List (List Node)) :
    List (Nat × List (List Node)) :=
  (List.range K).map (fun i =>
    (i + 1, (routes.enum.filter (fun p => p.1 % K == i)).map Prod.snd))

/-- Observable outcome of one invocation, with the vehicle count feeding
only the assignment field. -/
structure HeurReport where
  routes : List (List Node)
  totalTravel : Option ℚ
  totalUnload : ℚ
  obj : Option ℚ
  assignments : List (Nat × List (List Node))
deriving DecidableEq

/-- Full pipeline with the fleet reporting step, mirroring the source
signature that accepts V_count. -/
def heuristicWithFleet (I : VRPInstance) (Vcount : Nat) (fuel : Nat) :
    Option HeurReport :=
  (runHeuristic I fuel).map (fun g =>
    { routes := g.routes, totalTravel := g.totalTravel,
      totalUnload := g.totalUnload, obj := objective g,
      assignments := roundRobinAssign Vcount g.routes })

/-- Sum of the remaining demand over the customer set. -/
def remSum (I : VRPInstance) (r : List (Node × ℚ)) : ℚ :=
  ((custSet I).map (fun n => remGet r n)).sum

/-- Sum of the initial demand over the customer set. -/
def demSum (I : VRPInstance) : ℚ :=
  ((custSet I).map (fun n => demGet I n)).sum

/-- All stored demand values are nonnegative. -/
def NonnegA (r : List (Node × ℚ)) : Prop := ∀ p ∈ r, 0 ≤ p.2

/-- Invariant of the global state between trips. -/
structure Inv (I : VRPInstance) (g : GlobalState) : Prop where
  sub : ∀ n ∈ g.unvisited, n ∈ custSet I
  nodup : g.unvisited.Nodup
  keys : g.rem.map Prod.fst = I.demand.map Prod.fst
  served : ∀ n ∈ custSet I, n ∉ g.unvisited → remGet g.rem n ≤ eps
  conserve : g.delivered + remSum I g.rem = demSum I
  loads_eq : g.delivered = g.tripLoads.sum
  loads_le : ∀ x ∈ g.tripLoads, x ≤ I.capacity
  routes_shape : ∀ r ∈ g.routes, ∃ v, r = 0 :: (v ++ [0]) ∧ v ≠ [] ∧
    v.Nodup ∧ ∀ x ∈ v, x ∈ custSet I

/-- Part of the invariant that does not mention the ghost equality between
delivered and the kept-trip loads; it is what survives inside a trip. -/
structure GCore (I : VRPInstance) (g : GlobalState) : Prop where
  sub : ∀ n ∈ g.unvisited, n ∈ custSet I
  nodup : g.unvisited.Nodup
  keys : g.rem.map Prod.fst = I.demand.map Prod.fst
  served : ∀ n ∈ custSet I, n ∉ g.unvisited → remGet g.rem n ≤ eps
  conserve : g.delivered + remSum I g.rem = demSum I
  loads_le : ∀ x ∈ g.tripLoads, x ≤ I.capacity
  routes_shape : ∀ r ∈ g.routes, ∃ v, r = 0 :: (v ++ [0]) ∧ v ≠ [] ∧
    v.Nodup ∧ ∀ x ∈ v, x ∈ custSet I

/-- Invariant of the trip under construction. -/
structure TCore (I : VRPInstance) (g : GlobalState) (t : TripState) : Prop where
  route_eq : t.route = 0 :: t.route.tail
  tail_nodup : t.route.tail.Nodup
  tail_cust : ∀ x ∈ t.route.tail, x ∈ custSet I
  tail_empty_iff : t.route.tail = [] ↔ t.loc = 0
  load0 : t.loc = 0 → t.load = 0
  load_le : t.loc ≠ 0 → t.load ≤ I.capacity
  deliv : g.delivered = g.tripLoads.sum + t.load

/-- The customers already visited on the current trip are no longer in the
unvisited set; this holds at every loop entry of the inner loop. -/
def Disj (g : GlobalState) (t : TripState) : Prop :=
  ∀ x ∈ t.route.tail, x ∉ g.unvisited

/-- Small fully connected instance: one customer with demand 3, capacity 5,
speed 60, one minute of unloading per unit. -/
def instW : VRPInstance :=
  { S := [0, 1], dist := [((0,1),1), ((1,0),1), ((0,0),0), ((1,1),0)],
    demand := [(1, 3)], capacity := 5, speed := 60, unload_t := 1 }

/-- Final state the construction reaches on instW. -/
def gW : GlobalState :=
  { unvisited := [], rem := [(1, 0)], routes := [[0, 1, 0]],
    totalTravel := some 2, totalUnload := 3, delivered := 3, tripLoads := [3] }

/-- The same instance with the customer renamed from 1 to 2; it produces
the same objective but a different route list. -/
def instB : VRPInstance :=
  { S := [0, 2], dist := [((0,2),1), ((2,0),1), ((0,0),0), ((2,2),0)],
    demand := [(2, 3)], capacity := 5, speed := 60, unload_t := 1 }

/-- Instance with an empty demand dictionary. -/
def instEmpty : VRPInstance :=
  { S := [0, 1], dist := [((0,1),1), ((1,0),1), ((0,0),0), ((1,1),0)],
    demand := [], capacity := 5, speed := 60, unload_t := 1 }

/-- Instance whose single demand entry is negative. -/
def negInst : VRPInstance :=
  { S := [0, 1], dist := [((0,1),1), ((1,0),1), ((0,0),0), ((1,1),0)],
    demand := [(1, -5)], capacity := 10, speed := 60, unload_t := 1 }

/-- Instance with one customer carrying demand but an empty distance
dictionary, so every distance query falls back to infinity and the
customer can never be selected. -/
def unreachableInst : VRPInstance :=
  { S := [0, 1], dist := [], demand := [(1, 5)], capacity := 10,
    speed := 60, unload_t := 1 }

theorem eps_pos : 0 < eps := by norm_num [eps]

theorem alookup_mem {α : Type} [DecidableEq α] (k : α) (v : ℚ) :
    ∀ l : List (α × ℚ), alookup l k = some v → (k, v) ∈ l
  | [], h => by simp [alookup] at h
  | (k1, v1) :: rest, h => by
      by_cases hk : k1 = k
      · subst hk
        have hv : v1 = v := by simpa [alookup] using h
        subst hv
        exact List.mem_cons_self _ _
      · simp only [alookup, if_neg hk] at h
        exact List.mem_cons_of_mem _ (alookup_mem k v rest h)

theorem aupdate_keys (k : Node) (v : ℚ) :
    ∀ l : List (Node × ℚ), (aupdate l k v).map Prod.fst = l.map Prod.fst
  | [] => rfl
  | (k1, v1) :: rest => by
      by_cases hk : k1 = k
      · simp [aupdate, hk]
      · simp [aupdate, hk, aupdate_keys k v rest]

theorem alookup_isSome_iff {α : Type} [DecidableEq α] (k : α) :
    ∀ l : List (α × ℚ), (alookup l k).isSome ↔ k ∈ l.map Prod.fst
  | [] => by simp [alookup]
  | (k1, v1) :: rest => by
      by_cases hk : k1 = k
      · subst hk; simp [alookup]
      · have hk2 : ¬ k = k1 := fun h => hk h.symm
        simp [alookup, hk, hk2, alookup_isSome_iff k rest]

theorem alookup_aupdate_self (k : Node) (v : ℚ) :
    ∀ l : List (Node × ℚ), (alookup l k).isSome →
      alookup (aupdate l k v) k = some v
  | [], h => by simp [alookup] at h
  | (k1, v1) :: rest, h => by
      by_cases hk : k1 = k
      · simp [aupdate, hk, alookup]
      · simp only [alookup, if_neg hk] at h
        simp [aupdate, hk, alookup, alookup_aupdate_self k v rest h]

theorem alookup_aupdate_ne (k k2 : Node) (v : ℚ) (hne : k2 ≠ k) :
    ∀ l : List (Node × ℚ), alookup (aupdate l k v) k2 = alookup l k2
  | [] => rfl
  | (k1, v1) :: rest => by
      by_cases hk : k1 = k
      · subst hk
        have h2 : ¬ k1 = k2 := fun h => hne h.symm
        simp [aupdate, alookup, h2]
      · by_cases h3 : k1 = k2
        · subst h3
          simp [aupdate, alookup, hk]
        · simp [aupdate, alookup, hk, h3, alookup_aupdate_ne k k2 v hne rest]

theorem remGet_aupdate_self (r : List (Node × ℚ)) (c : Node) (v : ℚ)
    (h : (alookup r c).isSome) : remGet (aupdate r c v) c = v := by
  simp [remGet, alookup_aupdate_self c v r h]

theorem remGet_aupdate_ne (r : List (Node × ℚ)) (c n : Node) (v : ℚ)
    (h : n ≠ c) : remGet (aupdate r c v) n = remGet r n := by
  simp [remGet, alookup_aupdate_ne c n v h r]

theorem mem_aupdate (k : Node) (v : ℚ) :
    ∀ (l : List (Node × ℚ)) (p : Node × ℚ), p ∈ aupdate l k v →
      p ∈ l ∨ p.2 = v
  | [], p, h => by simp [aupdate] at h
  | (k1, v1) :: rest, p, h => by
      by_cases hk : k1 = k
      · simp only [aupdate, if_pos hk, List.mem_cons] at h
        rcases h with h | h
        · right; rw [h]
        · left; exact List.mem_cons_of_mem _ h
      · simp only [aupdate, if_neg hk, List.mem_cons] at h
        rcases h with h | h
        · left; rw [h]; exact List.mem_cons_self _ _
        · rcases mem_aupdate k v rest p h with h2 | h2
          · left; exact List.mem_cons_of_mem _ h2
          · right; exact h2

theorem nonnegA_remGet {r : List (Node × ℚ)} (h : NonnegA r) (n : Node) :
    0 ≤ remGet r n := by
  unfold remGet
  cases hv : alookup r n with
  | none => simp
  | some v => simpa using h (n, v) (alookup_mem n v r hv)

theorem nonnegA_aupdate {r : List (Node × ℚ)} (h : NonnegA r) {c : Node}
    {v : ℚ} (hv : 0 ≤ v) : NonnegA (aupdate r c v) := by
  intro p hp
  rcases mem_aupdate c v r p hp with h2 | h2
  · exact h p h2
  · rw [h2]; exact hv

theorem mem_customersList_iff (I : VRPInstance) (n : Node) :
    n ∈ customersList I ↔
      n ∈ I.S ∧ n ≠ 0 ∧ (alookup I.demand n).isSome ∧ eps < demGet I n := by
  simp [customersList, List.mem_filter, and_assoc]

theorem mem_custSet_iff (I : VRPInstance) (n : Node) :
    n ∈ custSet I ↔
      n ∈ I.S ∧ n ≠ 0 ∧ (alookup I.demand n).isSome ∧ eps < demGet I n := by
  rw [custSet, List.mem_dedup]
  exact mem_customersList_iff I n

theorem custSet_nodup (I : VRPInstance) : (custSet I).Nodup :=
  List.nodup_dedup _

theorem custSet_ne_zero {I : VRPInstance} {n : Node} (h : n ∈ custSet I) :
    n ≠ 0 :=
  ((mem_custSet_iff I n).mp h).2.1

theorem custSet_key {I : VRPInstance} {n : Node} (h : n ∈ custSet I) :
    (alookup I.demand n).isSome :=
  ((mem_custSet_iff I n).mp h).2.2.1

theorem selectFold_spec (I : VRPInstance) (load : ℚ) (loc : Node)
    (rem : List (Node × ℚ)) :
    ∀ (l : List Node) (acc : Option Node × Option ℚ) (c : Node),
      (l.foldl (selectFold I load loc rem) acc).1 = some c →
      acc.1 = some c ∨ (c ∈ l ∧ eps < remGet rem c ∧
        load < I.capacity - eps ∧ (distGet I loc c).isSome)
  | [], acc, c, h => Or.inl h
  | a :: l, acc, c, h => by
      have h1 : (l.foldl (selectFold I load loc rem)
          (selectFold I load loc rem acc a)).1 = some c := by
        simpa using h
      rcases selectFold_spec I load loc rem l _ c h1 with h2 | h2
      · unfold selectFold at h2
        by_cases h3 : eps < remGet rem a
        · by_cases h4 : optLt (distGet I loc a) acc.2 = true
          · by_cases h5 : load < I.capacity - eps
            · simp only [if_pos h3, if_pos h4, if_pos h5] at h2
              have hac : a = c := by simpa using h2
              subst hac
              refine Or.inr ⟨List.mem_cons_self _ _, h3, h5, ?_⟩
              cases hd : distGet I loc a with
              | none =>
                  rw [hd] at h4
                  cases acc.2 <;> simp [optLt] at h4
              | some d => simp
            · simp only [if_pos h3, if_pos h4, if_neg h5] at h2
              exact Or.inl h2
          · simp only [if_pos h3, if_neg h4] at h2
            exact Or.inl h2
        · simp only [if_neg h3] at h2
          exact Or.inl h2
      · exact Or.inr ⟨List.mem_cons_of_mem _ h2.1, h2.2⟩

theorem selectNext_spec (I : VRPInstance) (load : ℚ) (loc : Node)
    (rem : List (Node × ℚ)) (unv : List Node) (c : Node)
    (h : selectNext I load loc rem unv = some c) :
    c ∈ unv ∧ eps < remGet rem c ∧ load < I.capacity - eps ∧
      (distGet I loc c).isSome := by
  rcases selectFold_spec I load loc rem unv (none, none) c h with h2 | h2
  · simp at h2
  · exact h2

theorem list_sum_nonneg : ∀ l : List ℚ, (∀ x ∈ l, 0 ≤ x) → 0 ≤ l.sum
  | [], _ => le_refl 0
  | a :: l, h => by
      simp only [List.sum_cons]
      have h1 := list_sum_nonneg l (fun x hx => h x (List.mem_cons_of_mem _ hx))
      have h2 := h a (List.mem_cons_self _ _)
      linarith

theorem list_sum_le_length_mul :
    ∀ (l : List ℚ) (b : ℚ), (∀ x ∈ l, x ≤ b) → l.sum ≤ l.length * b
  | [], b, _ => by simp
  | a :: l, b, h => by
      simp only [List.sum_cons, List.length_cons]
      have h1 := list_sum_le_length_mul l b
        (fun x hx => h x (List.mem_cons_of_mem _ hx))
      have h2 := h a (List.mem_cons_self _ _)
      push_cast
      nlinarith [h1, h2]

theorem sum_map_remGet_aupdate :
    ∀ l : List Node, l.Nodup → ∀ (r : List (Node × ℚ)) (c : Node), c ∈ l →
      (alookup r c).isSome → ∀ v : ℚ,
      (l.map (fun n => remGet (aupdate r c v) n)).sum
        = (l.map (fun n => remGet r n)).sum - remGet r c + v
  | [], _, r, c, hc, _, v => by simp at hc
  | a :: l, hnd, r, c, hc, hs, v => by
      rcases List.mem_cons.mp hc with hac | hcl
      · subst hac
        have hnotin : c ∉ l := (List.nodup_cons.mp hnd).1
        simp only [List.map_cons, List.sum_cons]
        rw [remGet_aupdate_self r c v hs]
        have hmap : l.map (fun n => remGet (aupdate r c v) n)
            = l.map (fun n => remGet r n) := by
          apply List.map_congr_left
          intro x hx
          exact remGet_aupdate_ne r c x v (fun h => hnotin (h ▸ hx))
        rw [hmap]
        ring
      · have ha : a ≠ c := by
          rintro rfl
          exact (List.nodup_cons.mp hnd).1 hcl
        simp only [List.map_cons, List.sum_cons]
        rw [remGet_aupdate_ne r c a v ha,
          sum_map_remGet_aupdate l (List.nodup_cons.mp hnd).2 r c hcl hs v]
        ring

theorem GCore.rem_isSome {I : VRPInstance} {g : GlobalState} (hG : GCore I g)
    {c : Node} (hc : c ∈ custSet I) : (alookup g.rem c).isSome := by
  rw [alookup_isSome_iff, hG.keys, ← alookup_isSome_iff]
  exact custSet_key hc

theorem visit_preserves (I : VRPInstance) (g : GlobalState) (t : TripState)
    (c : Node) (hG : GCore I g) (hT : TCore I g t) (hD : Disj g t)
    (hsel : selectNext I t.load t.loc g.rem g.unvisited = some c) :
    GCore I (visit I g t c).1 ∧ TCore I (visit I g t c).1 (visit I g t c).2 ∧
    (∀ n ∈ (visit I g t c).1.unvisited, n ∈ g.unvisited) ∧
    (¬ I.capacity - eps ≤ (visit I g t c).2.load →
      Disj (visit I g t c).1 (visit I g t c).2) ∧
    (NonnegA g.rem → NonnegA (visit I g t c).1.rem) := by
  obtain ⟨hmem, hdem, hload, _⟩ :=
    selectNext_spec I t.load t.loc g.rem g.unvisited c hsel
  have hcS : c ∈ custSet I := hG.sub c hmem
  have hc0 : c ≠ 0 := custSet_ne_zero hcS
  have hkey : (alookup g.rem c).isSome := hG.rem_isSome hcS
  have hu_dem : min (I.capacity - t.load) (remGet g.rem c) ≤ remGet g.rem c :=
    min_le_right _ _
  have hu_can : min (I.capacity - t.load) (remGet g.rem c)
      ≤ I.capacity - t.load := min_le_left _ _
  have e_unv : (visit I g t c).1.unvisited
      = if remGet g.rem c - min (I.capacity - t.load) (remGet g.rem c) ≤ eps
        then g.unvisited.erase c else g.unvisited := rfl
  have e_rem : (visit I g t c).1.rem
      = aupdate g.rem c
          (remGet g.rem c - min (I.capacity - t.load) (remGet g.rem c)) := rfl
  have e_del : (visit I g t c).1.delivered
      = g.delivered + min (I.capacity - t.load) (remGet g.rem c) := rfl
  have e_routes : (visit I g t c).1.routes = g.routes := rfl
  have e_tl : (visit I g t c).1.tripLoads = g.tripLoads := rfl
  have e_route : (visit I g t c).2.route = t.route ++ [c] := rfl
  have e_tail : (visit I g t c).2.route.tail = t.route.tail ++ [c] := by
    rw [e_route]
    conv_lhs => rw [hT.route_eq]
    rfl
  have e_load : (visit I g t c).2.load
      = t.load + min (I.capacity - t.load) (remGet g.rem c) := rfl
  have e_loc : (visit I g t c).2.loc = c := rfl
  have hsubU : ∀ n ∈ (visit I g t c).1.unvisited, n ∈ g.unvisited := by
    intro n hn
    rw [e_unv] at hn
    by_cases hrm : remGet g.rem c
        - min (I.capacity - t.load) (remGet g.rem c) ≤ eps
    · rw [if_pos hrm] at hn
      exact List.erase_subset _ _ hn
    · rwa [if_neg hrm] at hn
  refine ⟨⟨?_, ?_, ?_, ?_, ?_, ?_, ?_⟩, ⟨?_, ?_, ?_, ?_, ?_, ?_, ?_⟩,
    hsubU, ?_, ?_⟩
  · exact fun n hn => hG.sub n (hsubU n hn)
  · rw [e_unv]
    by_cases hrm : remGet g.rem c
        - min (I.capacity - t.load) (remGet g.rem c) ≤ eps
    · rw [if_pos hrm]
      exact hG.nodup.erase _
    · rw [if_neg hrm]
      exact hG.nodup
  · rw [e_rem, aupdate_keys]
    exact hG.keys
  · intro n hnS hn
    rw [e_unv] at hn
    rw [e_rem]
    by_cases hnc : n = c
    · subst hnc
      rw [remGet_aupdate_self g.rem n _ hkey]
      by_cases hrm : remGet g.rem n
          - min (I.capacity - t.load) (remGet g.rem n) ≤ eps
      · exact hrm
      · rw [if_neg hrm] at hn
        exact absurd hmem hn
    · rw [remGet_aupdate_ne g.rem c n _ hnc]
      apply hG.served n hnS
      by_cases hrm : remGet g.rem c
          - min (I.capacity - t.load) (remGet g.rem c) ≤ eps
      · rw [if_pos hrm] at hn
        intro hng
        exact hn ((List.mem_erase_of_ne hnc).mpr hng)
      · rwa [if_neg hrm] at hn
  · rw [e_del, e_rem]
    unfold remSum
    rw [sum_map_remGet_aupdate (custSet I) (custSet_nodup I) g.rem c hcS hkey]
    have hc2 := hG.conserve
    unfold remSum at hc2
    linarith [hc2]
  · rw [e_tl]
    exact hG.loads_le
  · rw [e_routes]
    exact hG.routes_shape
  · show t.route ++ [c] = 0 :: (t.route ++ [c]).tail
    rw [hT.route_eq]
    rfl
  · rw [e_tail, List.nodup_append]
    refine ⟨hT.tail_nodup, List.nodup_singleton c, ?_⟩
    intro x hx hxc
    have hxc2 : x = c := by simpa using hxc
    subst hxc2
    exact hD x hx hmem
  · rw [e_tail]
    intro x hx
    rcases List.mem_append.mp hx with hx | hx
    · exact hT.tail_cust x hx
    · have hxc : x = c := by simpa using hx
      subst hxc
      exact hcS
  · rw [e_tail, e_loc]
    constructor
    · intro h
      exact absurd h (by simp)
    · intro h
      exact absurd h hc0
  · rw [e_loc]
    intro h
    exact absurd h hc0
  · intro _
    rw [e_load]
    linarith [hu_can]
  · rw [e_del, e_tl, e_load]
    have hd2 := hT.deliv
    linarith [hd2]
  · intro hnle x hx
    rw [e_tail] at hx
    rw [e_unv]
    have hrm : remGet g.rem c
        - min (I.capacity - t.load) (remGet g.rem c) ≤ eps := by
      by_contra hrm
      have hne : min (I.capacity - t.load) (remGet g.rem c) ≠ remGet g.rem c := by
        intro h
        rw [h] at hrm
        simp at hrm
        exact absurd (le_of_lt eps_pos) (not_le.mpr hrm)
      have hu_eq : min (I.capacity - t.load) (remGet g.rem c)
          = I.capacity - t.load := by
        rcases le_total (I.capacity - t.load) (remGet g.rem c) with h | h
        · exact min_eq_left h
        · exact absurd (min_eq_right h) hne
      apply hnle
      rw [e_load, hu_eq]
      linarith [eps_pos]
    rw [if_pos hrm]
    rcases List.mem_append.mp hx with hx | hx
    · intro hmem2
      exact hD x hx (List.erase_subset _ _ hmem2)
    · have hxc : x = c := by simpa using hx
      subst hxc
      exact hG.nodup.not_mem_erase
  · intro hnn
    rw [e_rem]
    apply nonnegA_aupdate hnn
    linarith [hu_dem]

theorem closeTrip_preserves (I : VRPInstance) (g : GlobalState) (t : TripState)
    (hG : GCore I g) (hT : TCore I g t) :
    Inv I (closeTrip I g t) ∧ (closeTrip I g t).unvisited = g.unvisited ∧
    (closeTrip I g t).rem = g.rem := by
  by_cases hloc : t.loc = 0
  · have htail : t.route.tail = [] := hT.tail_empty_iff.mpr hloc
    have hroute : t.route = [0] := by rw [hT.route_eq, htail]
    have hload : t.load = 0 := hT.load0 hloc
    have hclose : closeTrip I g t = g := by
      simp [closeTrip, hloc, hroute]
    rw [hclose]
    refine ⟨⟨hG.sub, hG.nodup, hG.keys, hG.served, hG.conserve, ?_,
      hG.loads_le, hG.routes_shape⟩, rfl, rfl⟩
    rw [hT.deliv, hload, add_zero]
  · have htail : t.route.tail ≠ [] := fun h => hloc (hT.tail_empty_iff.mp h)
    have hlen2 : 2 ≤ t.route.length := by
      rw [hT.route_eq]
      have := List.length_pos.mpr htail
      simp only [List.length_cons]
      omega
    have hclose : closeTrip I g t
        = { g with routes := g.routes ++ [t.route ++ [0]],
                   totalTravel := iAdd g.totalTravel
                     (iAdd t.tTravel (getTravelTime I t.loc 0)),
                   totalUnload := g.totalUnload + t.tUnload,
                   tripLoads := g.tripLoads ++ [t.load] } := by
      simp [closeTrip, hloc]
      intro hcontra
      exact absurd hcontra (by omega)
    rw [hclose]
    refine ⟨⟨hG.sub, hG.nodup, hG.keys, hG.served, hG.conserve, ?_, ?_, ?_⟩,
      rfl, rfl⟩
    · show g.delivered = (g.tripLoads ++ [t.load]).sum
      rw [List.sum_append, List.sum_cons, List.sum_nil, add_zero]
      exact hT.deliv
    · intro x hx
      rcases List.mem_append.mp hx with hx | hx
      · exact hG.loads_le x hx
      · have hxl : x = t.load := by simpa using hx
        subst hxl
        exact hT.load_le hloc
    · intro r hr
      rcases List.mem_append.mp hr with hr | hr
      · exact hG.routes_shape r hr
      · have hrr : r = t.route ++ [0] := by simpa using hr
        subst hrr
        refine ⟨t.route.tail, ?_, htail, hT.tail_nodup, hT.tail_cust⟩
        rw [hT.route_eq]
        rfl

theorem runTrip_preserves (I : VRPInstance) :
    ∀ (fuel : Nat) (g : GlobalState) (t : TripState) (g2 : GlobalState),
      runTrip I fuel g t = some g2 → GCore I g → TCore I g t → Disj g t →
      Inv I g2 ∧ (∀ n ∈ g2.unvisited, n ∈ g.unvisited) ∧
      (NonnegA g.rem → NonnegA g2.rem)
  | 0, g, t, g2, h, _, _, _ => by simp [runTrip] at h
  | fuel + 1, g, t, g2, h, hG, hT, hD => by
      rw [runTrip] at h
      cases hsel : selectNext I t.load t.loc g.rem g.unvisited with
      | none =>
          rw [hsel] at h
          have hg2 : closeTrip I g t = g2 := by
            simpa using h
          obtain ⟨hInv, hu, hr⟩ := closeTrip_preserves I g t hG hT
          subst hg2
          exact ⟨hInv, fun n hn => by rw [hu] at hn; exact hn,
            fun hnn => by rw [hr]; exact hnn⟩
      | some c =>
          rw [hsel] at h
          have h1 : (if I.capacity - eps ≤ (visit I g t c).2.load ∨
              (visit I g t c).1.unvisited = [] then
                some (closeTrip I (visit I g t c).1 (visit I g t c).2)
              else runTrip I fuel (visit I g t c).1 (visit I g t c).2)
              = some g2 := h
          obtain ⟨hG2, hT2, hsub, hDcont, hnn⟩ :=
            visit_preserves I g t c hG hT hD hsel
          by_cases hbrk : I.capacity - eps ≤ (visit I g t c).2.load ∨
              (visit I g t c).1.unvisited = []
          · rw [if_pos hbrk] at h1
            have hg2 : closeTrip I (visit I g t c).1 (visit I g t c).2 = g2 := by
              simpa using h1
            obtain ⟨hInv, hu, hr⟩ :=
              closeTrip_preserves I (visit I g t c).1 (visit I g t c).2 hG2 hT2
            subst hg2
            refine ⟨hInv, fun n hn => ?_, fun h0 => ?_⟩
            · rw [hu] at hn
              exact hsub n hn
            · rw [hr]
              exact hnn h0
          · rw [if_neg hbrk] at h1
            push_neg at hbrk
            obtain ⟨hInv, hsub2, hnn2⟩ :=
              runTrip_preserves I fuel (visit I g t c).1 (visit I g t c).2 g2 h1
                hG2 hT2 (hDcont (not_le.mpr hbrk.1))
            exact ⟨hInv, fun n hn => hsub n (hsub2 n hn),
              fun h0 => hnn2 (hnn h0)⟩

theorem Inv_init (I : VRPInstance) : Inv I (initState I) := by
  refine ⟨fun n hn => hn, List.nodup_dedup _, rfl, fun n hn hnn => absurd hn hnn,
    ?_, rfl, ?_, ?_⟩
  · show (0 : ℚ) + remSum I I.demand = demSum I
    rw [zero_add]
    rfl
  · intro x hx
    simp [initState] at hx
  · intro r hr
    simp [initState] at hr

theorem runOuter_preserves (I : VRPInstance) :
    ∀ (fuel : Nat) (g g2 : GlobalState),
      runOuter I fuel g = some g2 → Inv I g →
      Inv I g2 ∧ g2.unvisited = [] ∧ (NonnegA g.rem → NonnegA g2.rem)
  | 0, g, g2, h, _ => by simp [runOuter] at h
  | fuel + 1, g, g2, h, hInv => by
      rw [runOuter] at h
      by_cases hemp : g.unvisited = []
      · rw [if_pos hemp] at h
        have hg2 : g = g2 := by simpa using h
        subst hg2
        exact ⟨hInv, hemp, fun h0 => h0⟩
      · rw [if_neg hemp] at h
        cases htrip : runTrip I fuel g initTrip with
        | none =>
            rw [htrip] at h
            simp at h
        | some g3 =>
            rw [htrip] at h
            have h1 : (if g3.unvisited = [] then some g3 else runOuter I fuel g3)
                = some g2 := h
            have hGC : GCore I g := ⟨hInv.sub, hInv.nodup, hInv.keys,
              hInv.served, hInv.conserve, hInv.loads_le, hInv.routes_shape⟩
            have hTC : TCore I g initTrip := by
              refine ⟨rfl, ?_, ?_, ?_, fun _ => rfl, fun h0 => absurd rfl h0, ?_⟩
              · exact List.nodup_nil
              · intro x hx
                simp [initTrip] at hx
              · simp [initTrip]
              · show g.delivered = g.tripLoads.sum + 0
                rw [add_zero]
                exact hInv.loads_eq
            have hDj : Disj g initTrip := by
              intro x hx
              simp [initTrip] at hx
            obtain ⟨hInv3, hsub3, hnn3⟩ :=
              runTrip_preserves I fuel g initTrip g3 htrip hGC hTC hDj
            by_cases hemp3 : g3.unvisited = []
            · rw [if_pos hemp3] at h1
              have hg2 : g3 = g2 := by simpa using h1
              subst hg2
              exact ⟨hInv3, hemp3, hnn3⟩
            · rw [if_neg hemp3] at h1
              obtain ⟨hi, he, hn⟩ := runOuter_preserves I fuel g3 g2 h1 hInv3
              exact ⟨hi, he, fun h0 => hn (hnn3 h0)⟩

/-- C1: on every instance with nonnegative demands and a fully populated
distance map on which the construction terminates successfully (the outer
loop exits because the unvisited set is empty), every customer whose
initial demand exceeds eps ends with remaining demand at most eps, and the
total delivered quantity equals the total initial customer demand within a
tolerance of eps per customer. -/
theorem C1_conservation_and_full_service (I : VRPInstance) (fuel : Nat)
    (g2 : GlobalState)
    (hnn : ∀ p ∈ I.demand, 0 ≤ p.2)
    (hfull : ∀ i ∈ I.S, ∀ j ∈ I.S, (distGet I i j).isSome)
    (hrun : runHeuristic I fuel = some g2) :
    (∀ n ∈ custSet I, remGet g2.rem n ≤ eps) ∧
    demSum I - ((custSet I).length : ℚ) * eps ≤ g2.delivered ∧
    g2.delivered ≤ demSum I := by
  obtain ⟨hInv, hemp, hnng⟩ :=
    runOuter_preserves I fuel (initState I) g2 hrun (Inv_init I)
  have hnn2 : NonnegA g2.rem := hnng hnn
  have hserved : ∀ n ∈ custSet I, remGet g2.rem n ≤ eps := by
    intro n hn
    apply hInv.served n hn
    rw [hemp]
    exact List.not_mem_nil n
  have hc := hInv.conserve
  unfold remSum at hc
  refine ⟨hserved, ?_, ?_⟩
  · have hle : ∀ x ∈ (custSet I).map (fun n => remGet g2.rem n), x ≤ eps := by
      intro x hx
      obtain ⟨n, hn, rfl⟩ := List.mem_map.mp hx
      exact hserved n hn
    have h2 := list_sum_le_length_mul _ eps hle
    rw [List.length_map] at h2
    linarith [hc, h2]
  · have h2 : 0 ≤ ((custSet I).map (fun n => remGet g2.rem n)).sum := by
      apply list_sum_nonneg
      intro x hx
      obtain ⟨n, hn, rfl⟩ := List.mem_map.mp hx
      exact nonnegA_remGet hnn2 n
    linarith [hc, h2]

/-- C2: whenever the construction terminates, the delivered quantity of
every kept trip is at most capacity plus eps; moreover a customer is only
selectable while the current load is strictly below capacity minus eps. -/
theorem C2_trip_capacity (I : VRPInstance) (fuel : Nat) (g2 : GlobalState)
    (hrun : runHeuristic I fuel = some g2) :
    (∀ x ∈ g2.tripLoads, x ≤ I.capacity + eps) ∧
    (∀ (load : ℚ) (loc : Node) (rem : List (Node × ℚ)) (unv : List Node)
      (c : Node), selectNext I load loc rem unv = some c →
        load < I.capacity - eps) := by
  obtain ⟨hInv, _, _⟩ :=
    runOuter_preserves I fuel (initState I) g2 hrun (Inv_init I)
  refine ⟨?_, ?_⟩
  · intro x hx
    have := hInv.loads_le x hx
    linarith [eps_pos]
  · intro load loc rem unv c h
    exact (selectNext_spec I load loc rem unv c h).2.2.1

/-- C4: when a candidate customer has been selected, the visit step adds
travel time distance divided by speed times 60, delivers the minimum of
the residual capacity and the remaining demand, adds unload time equal to
the unload rate times the delivered quantity, decrements the remaining
demand by the delivered quantity, and removes the customer from the
unvisited set exactly when its updated remaining demand is at most eps. -/
theorem C4_visit_step (I : VRPInstance) (g : GlobalState) (t : TripState)
    (c : Node) (d : ℚ)
    (hsel : selectNext I t.load t.loc g.rem g.unvisited = some c)
    (hdist : distGet I t.loc c = some d)
    (hkey : (alookup g.rem c).isSome)
    (hnd : g.unvisited.Nodup) :
    (visit I g t c).2.tTravel = iAdd t.tTravel (some (d / I.speed * 60)) ∧
    (visit I g t c).2.load
      = t.load + min (I.capacity - t.load) (remGet g.rem c) ∧
    (visit I g t c).2.tUnload
      = t.tUnload + I.unload_t * min (I.capacity - t.load) (remGet g.rem c) ∧
    remGet (visit I g t c).1.rem c
      = remGet g.rem c - min (I.capacity - t.load) (remGet g.rem c) ∧
    (c ∉ (visit I g t c).1.unvisited ↔
      remGet (visit I g t c).1.rem c ≤ eps) := by
  have hmem := (selectNext_spec I t.load t.loc g.rem g.unvisited c hsel).1
  have e_rem : (visit I g t c).1.rem = aupdate g.rem c
      (remGet g.rem c - min (I.capacity - t.load) (remGet g.rem c)) := rfl
  have e_unv : (visit I g t c).1.unvisited
      = if remGet g.rem c - min (I.capacity - t.load) (remGet g.rem c) ≤ eps
        then g.unvisited.erase c else g.unvisited := rfl
  have hremc : remGet (visit I g t c).1.rem c
      = remGet g.rem c - min (I.capacity - t.load) (remGet g.rem c) := by
    rw [e_rem]
    exact remGet_aupdate_self g.rem c _ hkey
  refine ⟨?_, rfl, rfl, hremc, ?_⟩
  · show iAdd t.tTravel (getTravelTime I t.loc c)
      = iAdd t.tTravel (some (d / I.speed * 60))
    rw [getTravelTime, hdist]
    rfl
  · rw [hremc, e_unv]
    by_cases hrm : remGet g.rem c
        - min (I.capacity - t.load) (remGet g.rem c) ≤ eps
    · rw [if_pos hrm]
      exact ⟨fun _ => hrm, fun _ => hnd.not_mem_erase⟩
    · rw [if_neg hrm]
      exact ⟨fun hcon => absurd hmem hcon, fun h2 => absurd h2 hrm⟩

/-- C6: when no customer carries demand above eps, the construction makes
no trip, accumulates no time, reports a zero objective, and produces no
error; with any positive iteration budget it returns immediately. -/
theorem C6_degenerate_instance (I : VRPInstance) (fuel : Nat)
    (hdeg : customersList I = []) :
    runHeuristic I (fuel + 1) = some (initState I) ∧
    (initState I).routes = [] ∧ (initState I).totalTravel = some 0 ∧
    (initState I).totalUnload = 0 ∧ objective (initState I) = some 0 := by
  have hu : (initState I).unvisited = [] := by
    show custSet I = []
    rw [custSet, hdeg]
    rfl
  refine ⟨?_, rfl, rfl, rfl, ?_⟩
  · rw [runHeuristic, runOuter, if_pos hu]
  · show iAdd (some 0) (some 0) = some 0
    simp [iAdd]

/-- C7: every kept trip starts at the depot, ends at the depot, and visits
at least one customer; trip closing discards a depot-only trip without
touching the accumulated totals, and adds a trip and its travel and unload
times to the totals exactly when at least one customer was visited. -/
theorem C7_trip_boundaries_and_discard (I : VRPInstance) (fuel : Nat)
    (g2 : GlobalState) (hrun : runHeuristic I fuel = some g2) :
    (∀ r ∈ g2.routes, r.head? = some 0 ∧ r.getLast? = some 0 ∧
      2 < r.length ∧ ∃ c ∈ r, c ∈ custSet I) ∧
    (∀ (g : GlobalState) (t : TripState), t.loc = 0 → t.route = [0] →
      closeTrip I g t = g) ∧
    (∀ (g : GlobalState) (t : TripState), t.loc ≠ 0 → 2 ≤ t.route.length →
      closeTrip I g t
        = { g with routes := g.routes ++ [t.route ++ [0]],
                   totalTravel := iAdd g.totalTravel
                     (iAdd t.tTravel (getTravelTime I t.loc 0)),
                   totalUnload := g.totalUnload + t.tUnload,
                   tripLoads := g.tripLoads ++ [t.load] }) := by
  obtain ⟨hInv, _, _⟩ :=
    runOuter_preserves I fuel (initState I) g2 hrun (Inv_init I)
  refine ⟨?_, ?_, ?_⟩
  · intro r hr
    obtain ⟨v, hre, hvne, hvnd, hvc⟩ := hInv.routes_shape r hr
    subst hre
    refine ⟨rfl, ?_, ?_, ?_⟩
    · show ((0 :: v) ++ [0]).getLast? = some 0
      exact List.getLast?_concat _
    · have := List.length_pos.mpr hvne
      simp only [List.length_cons, List.length_append, List.length_nil]
      omega
    · obtain ⟨x, hx⟩ := List.exists_mem_of_ne_nil v hvne
      exact ⟨x, by simp [hx], hvc x hx⟩
  · intro g t hloc hroute
    simp [closeTrip, hloc, hroute]
  · intro g t hloc hlen
    simp [closeTrip, hloc]
    intro hcontra
    exact absurd hcontra (by omega)

/-- C10: inside every kept trip no customer appears twice, and the depot
appears only as the first and the last entry of the trip. -/
theorem C10_no_revisit_within_trip (I : VRPInstance) (fuel : Nat)
    (g2 : GlobalState) (hrun : runHeuristic I fuel = some g2) :
    ∀ r ∈ g2.routes, ∃ v, r = 0 :: (v ++ [0]) ∧ v.Nodup ∧
      ∀ x ∈ v, x ≠ 0 := by
  obtain ⟨hInv, _, _⟩ :=
    runOuter_preserves I fuel (initState I) g2 hrun (Inv_init I)
  intro r hr
  obtain ⟨v, hre, _, hvnd, hvc⟩ := hInv.routes_shape r hr
  exact ⟨v, hre, hvnd, fun x hx => custSet_ne_zero (hvc x hx)⟩

/-- C8: the vehicle count has no influence on the built routes, the total
travel time, the total unload time, or the objective; it only feeds the
round-robin reporting step. -/
theorem C8_vehicle_count_no_influence (I : VRPInstance) (V1 V2 fuel : Nat) :
    (heuristicWithFleet I V1 fuel).map
        (fun o => (o.routes, o.totalTravel, o.totalUnload, o.obj))
      = (heuristicWithFleet I V2 fuel).map
        (fun o => (o.routes, o.totalTravel, o.totalUnload, o.obj)) := by
  unfold heuristicWithFleet
  cases runHeuristic I fuel <;> rfl

/-- C5 counterexample: two instances whose constructions build different
route lists receive identical return values, so the value handed back to
the caller cannot contain the route list or determine it; the source hands
back only the objective total together with the wall-clock time. -/
theorem C5_return_lacks_routes :
    nearestNeighborHeuristic instW 10 = nearestNeighborHeuristic instB 10 ∧
    (runHeuristic instW 10).map GlobalState.routes
      ≠ (runHeuristic instB 10).map GlobalState.routes := by
  constructor
  · with_unfolding_all decide
  · with_unfolding_all decide

/-- C5 amended: the construction engine returns to its caller only the
objective value, the sum of the total travel time and the total unload
time, next to the wall-clock time which is not modelled; the trips and the
separate totals are computed and printed but are not part of the returned
value. -/
theorem C5_returned_value_is_objective (I : VRPInstance) (fuel : Nat)
    (g2 : GlobalState) (hrun : runHeuristic I fuel = some g2) :
    nearestNeighborHeuristic I fuel
      = some (iAdd g2.totalTravel (some g2.totalUnload)) := by
  rw [nearestNeighborHeuristic, hrun]
  rfl

/-- C9 counterexample: on an instance whose only demand entry is negative
the engine does not fail with a validation error; it silently drops the
node from the eligible customer list and returns a normal empty result. -/
theorem C9_no_validation_on_negative_demand :
    customersList negInst = [] ∧
    runHeuristic negInst 1 = some (initState negInst) := by
  constructor
  · with_unfolding_all decide
  · with_unfolding_all decide

/-- C9 amended: the engine performs no input validation; a node whose
demand is negative simply fails the eligibility filter demanding demand
above eps, is excluded from the unvisited set, and construction proceeds
without any error. -/
theorem C9_negative_demand_ignored (I : VRPInstance) (n : Node)
    (hneg : demGet I n < 0) :
    n ∉ customersList I ∧ n ∉ (initState I).unvisited := by
  have h1 : n ∉ customersList I := by
    intro hn
    have := ((mem_customersList_iff I n).mp hn).2.2.2
    linarith [eps_pos]
  refine ⟨h1, ?_⟩
  intro hn
  exact h1 (List.mem_dedup.mp hn)

/-- C3: on an instance with a customer that can never be selected because
every distance involving it is missing, the source loops forever: the
fuel-indexed semantics exhausts every iteration budget instead of
terminating with an unreachable-customers error. -/
theorem C3_unreachable_customer_loops_forever :
    ∀ fuel : Nat, runHeuristic unreachableInst fuel = none := by
  have hsel : selectNext unreachableInst initTrip.load initTrip.loc
      (initState unreachableInst).rem (initState unreachableInst).unvisited
      = none := by with_unfolding_all decide
  have hclose : closeTrip unreachableInst (initState unreachableInst) initTrip
      = initState unreachableInst := by with_unfolding_all decide
  have htrip : ∀ f : Nat, runTrip unreachableInst (f + 1)
      (initState unreachableInst) initTrip
      = some (initState unreachableInst) := by
    intro f
    rw [runTrip, hsel]
    show some (closeTrip unreachableInst (initState unreachableInst) initTrip)
      = some (initState unreachableInst)
    rw [hclose]
  have hne : ¬ (initState unreachableInst).unvisited = [] := by with_unfolding_all decide
  intro fuel
  induction fuel with
  | zero => rfl
  | succ f ih =>
      show runOuter unreachableInst (f + 1) (initState unreachableInst) = none
      rw [runOuter, if_neg hne]
      cases f with
      | zero => rfl
      | succ f2 =>
          rw [htrip f2]
          show (if (initState unreachableInst).unvisited = []
              then some (initState unreachableInst)
              else runOuter unreachableInst (f2 + 1)
                (initState unreachableInst)) = none
          rw [if_neg hne]
          exact ih

/-- Witness for C1: the hypotheses hold and the conclusion is reached on
the concrete instance instW with its final state gW. -/
theorem C1_witness :
    remGet gW.rem 1 ≤ eps ∧
    (demSum instW - ((custSet instW).length : ℚ) * eps ≤ gW.delivered ∧
      gW.delivered ≤ demSum instW) := by
  have h := C1_conservation_and_full_service instW 2 gW
    (by with_unfolding_all decide) (by with_unfolding_all decide)
    (by with_unfolding_all decide)
  exact ⟨h.1 1 (by with_unfolding_all decide), h.2⟩

/-- Witness for C2: on instW the single trip delivers 3 within a capacity
of 5, and the selection that succeeded started from a load of zero, below
capacity minus eps. -/
theorem C2_witness :
    ((3 : ℚ) ≤ instW.capacity + eps) ∧ ((0 : ℚ) < instW.capacity - eps) := by
  have h := C2_trip_capacity instW 2 gW (by with_unfolding_all decide)
  exact ⟨h.1 3 (by with_unfolding_all decide),
    h.2 0 0 [(1, 3)] [1] 1 (by with_unfolding_all decide)⟩

/-- Witness for C4: the visit equations at the first step on instW. -/
theorem C4_witness :
    (visit instW (initState instW) initTrip 1).2.tTravel
      = iAdd initTrip.tTravel (some (1 / instW.speed * 60)) ∧
    (visit instW (initState instW) initTrip 1).2.load
      = initTrip.load + min (instW.capacity - initTrip.load)
          (remGet (initState instW).rem 1) ∧
    (visit instW (initState instW) initTrip 1).2.tUnload
      = initTrip.tUnload + instW.unload_t
          * min (instW.capacity - initTrip.load)
            (remGet (initState instW).rem 1) ∧
    remGet (visit instW (initState instW) initTrip 1).1.rem 1
      = remGet (initState instW).rem 1
        - min (instW.capacity - initTrip.load)
            (remGet (initState instW).rem 1) ∧
    (1 ∉ (visit instW (initState instW) initTrip 1).1.unvisited ↔
      remGet (visit instW (initState instW) initTrip 1).1.rem 1 ≤ eps) :=
  C4_visit_step instW (initState instW) initTrip 1 1
    (by with_unfolding_all decide) (by with_unfolding_all decide)
    (by with_unfolding_all decide) (by with_unfolding_all decide)

/-- Witness for the amended C5 statement on the concrete instance instW. -/
theorem C5_witness :
    nearestNeighborHeuristic instW 2
      = some (iAdd gW.totalTravel (some gW.totalUnload)) :=
  C5_returned_value_is_objective instW 2 gW (by with_unfolding_all decide)

/-- Witness for C6 on the instance with an empty demand dictionary. -/
theorem C6_witness :
    runHeuristic instEmpty (0 + 1) = some (initState instEmpty) ∧
    (initState instEmpty).routes = [] ∧
    (initState instEmpty).totalTravel = some 0 ∧
    (initState instEmpty).totalUnload = 0 ∧
    objective (initState instEmpty) = some 0 :=
  C6_degenerate_instance instEmpty 0 (by with_unfolding_all decide)

/-- Witness for C7: the kept trip of instW is depot bounded, and closing
the fresh depot-only trip discards it without touching the state. -/
theorem C7_witness :
    ([0, 1, 0].head? = some 0 ∧ ([0, 1, 0] : List Node).getLast? = some 0 ∧
      2 < ([0, 1, 0] : List Node).length ∧
      ∃ c ∈ ([0, 1, 0] : List Node), c ∈ custSet instW) ∧
    closeTrip instW (initState instW) initTrip = initState instW := by
  have h := C7_trip_boundaries_and_discard instW 2 gW
    (by with_unfolding_all decide)
  exact ⟨h.1 [0, 1, 0] (by with_unfolding_all decide),
    h.2.1 (initState instW) initTrip rfl rfl⟩

/-- Witness for the amended C9 statement at the concrete negative-demand
instance. -/
theorem C9_witness :
    1 ∉ customersList negInst ∧ 1 ∉ (initState negInst).unvisited :=
  C9_negative_demand_ignored negInst 1 (by with_unfolding_all decide)

/-- Witness for C10 on the kept trip of instW. -/
theorem C10_witness :
    ∃ v, ([0, 1, 0] : List Node) = 0 :: (v ++ [0]) ∧ v.Nodup ∧
      ∀ x ∈ v, x ≠ 0 :=
  C10_no_revisit_within_trip instW 2 gW (by with_unfolding_all decide)
    [0, 1, 0] (by with_unfolding_all decide)

end ShelterRouting
